import Mathlib

/-!
Shallow embedding of the Beeftext excerpt:
`src/Combo/ComboTableFrame.cpp` (combo table frame: selection translation,
add / duplicate / delete / edit actions) and `src/PreferencesManager.cpp`
(typed preference accessors over a key-value settings store).

GUI state that matters to the operations is made explicit: the combo list,
the set of selected display rows, and the proxy model's display-to-source
index map. Environment outcomes (modal dialog accepted or rejected, delete
confirmation, success of the external save-to-file call) are passed as
parameters, and each action returns the new combo list together with the
observable effects (whether a confirmation prompt was shown, whether the
save-to-file call was made, whether the error dialog was shown).
-/

namespace Beeftext

/-- A combo record. Only the fields the excerpt manipulates are modelled:
some textual content and the edited flag touched by `markComboAsEdited`. -/
structure Combo where
  name : String
  keyword : String
  snippet : String
  edited : Bool
deriving DecidableEq

/-- Modelled from the spec: `Combo::create()` constructs a new empty combo
record (the factory itself is outside the excerpt). -/
def Combo.create : Combo :=
  { name := "", keyword := "", snippet := "", edited := false }

/-- Modelled from the spec: `Combo::duplicate()` clones the selected record's
content (the factory itself is outside the excerpt). -/
def Combo.duplicate (c : Combo) : Combo :=
  c

/-- Modelled from the spec: `ComboList::markComboAsEdited(index)` marks the
record at the given index as edited (the list class is outside the excerpt). -/
def markComboAsEdited (l : List Combo) (i : Nat) : List Combo :=
  match l[i]? with
  | some c => l.set i { c with edited := true }
  | none => l

/-- The state of the combo table frame that the modelled operations read:
the underlying combo list (internal order), the display rows currently
selected in the table view, and the proxy model's `mapToSource` row map.
`mapToSource` returns a `qint32` and may produce any value, including
negative ones, for rows with no source counterpart. -/
structure FrameState where
  comboList : List Combo
  selectedRows : List Nat
  mapToSource : Nat → Int

/-- `ComboTableFrame::getSelectedComboCount`: the number of selected display
rows. -/
def getSelectedComboCount (st : FrameState) : Nat :=
  st.selectedRows.length

/-- `ComboTableFrame::getSelectedComboIndexes`: for each selected display row,
map it to a source index through the proxy model and keep it only if it lies
within the bounds of the combo list. -/
def getSelectedComboIndexes (st : FrameState) : List Int :=
  st.selectedRows.filterMap fun r =>
    if 0 ≤ st.mapToSource r ∧ st.mapToSource r < (st.comboList.length : Int) then
      some (st.mapToSource r)
    else none

/-- The observable outcome of one table-frame action: the combo list after
the action, whether a confirmation prompt was shown, whether
`saveComboListToFile` was called, and whether the error dialog was shown. -/
structure ActionResult where
  comboList : List Combo
  prompted : Bool
  saveCalled : Bool
  errorShown : Bool
deriving DecidableEq

/-- The result of an action that returned without doing anything. -/
def noChange (st : FrameState) : ActionResult :=
  { comboList := st.comboList, prompted := false, saveCalled := false, errorShown := false }

/-- `ComboTableFrame::onActionAddCombo`: create an empty combo, run the modal
dialog on it (`accepted` is the dialog outcome, `dlgEdit` the content the
dialog leaves in the record when accepted); on acceptance append the record
and save the list to file, showing the error dialog if the save fails. -/
def onActionAddCombo (accepted : Bool) (dlgEdit : Combo → Combo) (saveOk : Bool)
    (st : FrameState) : ActionResult :=
  if !accepted then noChange st
  else
    { comboList := st.comboList ++ [dlgEdit Combo.create]
      prompted := false
      saveCalled := true
      errorShown := !saveOk }

/-- `ComboTableFrame::onActionDuplicateCombo`: require exactly one selected
source index, duplicate the record at that index, run the modal dialog on the
clone; on acceptance append the clone. No save-to-file call is made. -/
def onActionDuplicateCombo (accepted : Bool) (dlgEdit : Combo → Combo)
    (st : FrameState) : ActionResult :=
  match getSelectedComboIndexes st with
  | [i] =>
    match st.comboList[i.toNat]? with
    | some c =>
      if !accepted then noChange st
      else
        { comboList := st.comboList ++ [dlgEdit (Combo.duplicate c)]
          prompted := false
          saveCalled := false
          errorShown := false }
    | none => noChange st
  | _ => noChange st

/-- The descending insertion of `std::sort` with comparator
`first > second`: insert `x` before the first element it is not below. -/
def insertDesc (x : Int) : List Int → List Int
  | [] => [x]
  | y :: ys => if y ≤ x then x :: y :: ys else y :: insertDesc x ys

/-- Sort a list of indexes in descending order, modelling the
`std::sort(indexes.begin(), indexes.end(), first > second)` call in
`onActionDeleteCombo`. -/
def sortDesc : List Int → List Int
  | [] => []
  | x :: xs => insertDesc x (sortDesc xs)

/-- `ComboTableFrame::onActionDeleteCombo`: require at least one selected
display row, prompt for confirmation (`confirmed` is the user's answer); on
confirmation sort the selected source indexes in descending order, erase each
of them from the list, then save the list to file, showing the error dialog
if the save fails. -/
def onActionDeleteCombo (confirmed : Bool) (saveOk : Bool)
    (st : FrameState) : ActionResult :=
  if getSelectedComboCount st < 1 then noChange st
  else if !confirmed then
    { comboList := st.comboList, prompted := true, saveCalled := false, errorShown := false }
  else
    let indexes := sortDesc (getSelectedComboIndexes st)
    { comboList := indexes.foldl (fun l i => l.eraseIdx i.toNat) st.comboList
      prompted := true
      saveCalled := true
      errorShown := !saveOk }

/-- `ComboTableFrame::onActionEditCombo`: require exactly one selected source
index, run the modal dialog on the record at that index (shared handle, so on
acceptance the record in the list holds the dialog's content); on acceptance
mark the record as edited and save the list to file, showing the error dialog
if the save fails. -/
def onActionEditCombo (accepted : Bool) (dlgEdit : Combo → Combo) (saveOk : Bool)
    (st : FrameState) : ActionResult :=
  match getSelectedComboIndexes st with
  | [i] =>
    match st.comboList[i.toNat]? with
    | some c =>
      if !accepted then noChange st
      else
        { comboList := markComboAsEdited (st.comboList.set i.toNat (dlgEdit c)) i.toNat
          prompted := false
          saveCalled := true
          errorShown := !saveOk }
    | none => noChange st
  | _ => noChange st

/-- A value stored in the settings store, modelling the `QVariant` values
`QSettings` holds: the null variant, a boolean, a string, or a byte array. -/
inductive QVariant where
  | null
  | bool (b : Bool)
  | str (s : String)
  | bytes (a : List Nat)
deriving DecidableEq

/-- Qt's `QVariant::toBool` (the conversion performed by
`qvariant_cast<bool>`): a boolean variant yields its value; a string or byte
array yields `true` unless it is empty, "0" or "false"; null yields false. -/
def QVariant.toBool : QVariant → Bool
  | .null => false
  | .bool b => b
  | .str s => !(s == "" || s == "0" || s == "false")
  | .bytes a => !(a == [] || a == [48] || a == [102, 97, 108, 115, 101])

/-- Qt's `QVariant::toString`: a string variant yields its value, a boolean
yields "true" or "false", the rest yield the empty string. -/
def QVariant.toString : QVariant → String
  | .null => ""
  | .bool b => if b then "true" else "false"
  | .str s => s
  | .bytes _ => ""

/-- A `QSettings` store: a map from key to stored variant, absent keys
mapped to `none`. -/
def Settings : Type :=
  String → Option QVariant

/-- `QSettings::setValue`: store a value under a key. -/
def Settings.setValue (s : Settings) (k : String) (v : QVariant) : Settings :=
  fun q => if q = k then some v else s q

/-- `QSettings::contains`: whether a key is present in the store. -/
def Settings.contains (s : Settings) (k : String) : Bool :=
  (s k).isSome

/-- `QSettings::value` with a default: the stored variant when the key is
present, the supplied default otherwise. -/
def Settings.value (s : Settings) (k : String) (d : QVariant) : QVariant :=
  (s k).getD d

/-- A settings store in which no key has ever been set. -/
def Settings.fresh : Settings :=
  fun _ => none

/-- The settings key for storing the geometry. -/
def kKeyGeometry : String := "Geometry"

/-- The settings key for the application executable path. -/
def kKeyAppExePath : String := "AppExePath"

/-- The settings key for the play-sound-on-combo preference. -/
def kKeyPlaySoundOnCombo : String := "PlaySoundOnCombo"

/-- The settings key for the autostart-at-login preference. -/
def kKeyAutoStartAtLogin : String := "AutoStartAtLogin"

/-- The default value for the play-sound-on-combo preference. -/
def kDefaultValuePlaySoundOnCombo : Bool := true

/-- The default value for the autostart-at-login preference. -/
def kDefaultvalueAutoStartAtLogin : Bool := false

/-- `QDir::fromNativeSeparators`: convert the platform-native separator form
(backslashes on Windows, the platform Beeftext targets) to the normalized
forward-slash form. -/
def fromNativeSeparators (p : String) : String :=
  String.mk (p.data.map fun c => if c = Char.ofNat 92 then Char.ofNat 47 else c)

/-- `PreferencesManager::setMainWindowGeometry`. -/
def setMainWindowGeometry (s : Settings) (array : List Nat) : Settings :=
  s.setValue kKeyGeometry (.bytes array)

/-- `PreferencesManager::mainWindowGeometry`: the stored geometry blob, the
null variant's byte array (empty) when unset. -/
def mainWindowGeometry (s : Settings) : QVariant :=
  s.value kKeyGeometry .null

/-- `PreferencesManager::setAutoStartAtLogin`: only updates the store value;
it does not perform the OS-level autostart registration. -/
def setAutoStartAtLogin (s : Settings) (value : Bool) : Settings :=
  s.setValue kKeyAutoStartAtLogin (.bool value)

/-- `PreferencesManager::getAutoStartAtLogin`. -/
def getAutoStartAtLogin (s : Settings) : Bool :=
  (s.value kKeyAutoStartAtLogin (.bool kDefaultvalueAutoStartAtLogin)).toBool

/-- `PreferencesManager::setPlaySoundOnCombo`. -/
def setPlaySoundOnCombo (s : Settings) (value : Bool) : Settings :=
  s.setValue kKeyPlaySoundOnCombo (.bool value)

/-- `PreferencesManager::getPlaySoundOnCombo`. -/
def getPlaySoundOnCombo (s : Settings) : Bool :=
  (s.value kKeyPlaySoundOnCombo (.bool kDefaultValuePlaySoundOnCombo)).toBool

/-- `PreferencesManager::reset`: restore the two boolean preferences to their
default values through the ordinary setters. -/
def reset (s : Settings) : Settings :=
  setAutoStartAtLogin (setPlaySoundOnCombo s kDefaultValuePlaySoundOnCombo)
    kDefaultvalueAutoStartAtLogin

/-- `PreferencesManager::getInstalledApplicationPath`: a const getter, so the
store is returned unchanged alongside the result; the result is empty when
`AppExePath` was never set, and otherwise the stored path with native
separators normalized. -/
def getInstalledApplicationPath (s : Settings) : String × Settings :=
  if !(s.contains kKeyAppExePath) then ("", s)
  else (fromNativeSeparators (s.value kKeyAppExePath .null).toString, s)

/-- Keep the elements of `l` whose position (counted from `n`) is not in `s`. -/
def removeIdxAux (s : List Nat) : Nat → List α → List α
  | _, [] => []
  | n, x :: xs => if n ∈ s then removeIdxAux s (n + 1) xs else x :: removeIdxAux s (n + 1) xs

/-- The positional specification of multi-index deletion: the sublist of `l`
obtained by removing exactly the elements whose index is in `s` and keeping
every other element. -/
def removeIndexes (l : List α) (s : List Nat) : List α :=
  removeIdxAux s 0 l

/-- A sample combo record used in concrete frame states. -/
def sampleCombo (n : String) : Combo :=
  { name := n, keyword := n, snippet := n, edited := false }

/-- A concrete frame state with one combo, two selected display rows, and the
identity proxy map: row 1 maps outside the single-element list and is
dropped. -/
def c1State : FrameState :=
  { comboList := [sampleCombo "a"]
    selectedRows := [0, 1]
    mapToSource := fun r => (r : Int) }

/-- A concrete frame state with three combos and display rows 0 and 2
selected under the identity proxy map. -/
def c2State : FrameState :=
  { comboList := [sampleCombo "a", sampleCombo "b", sampleCombo "c"]
    selectedRows := [0, 2]
    mapToSource := fun r => (r : Int) }

/-- A concrete frame state with one combo whose single display row is
selected under the identity proxy map. -/
def singleSelState : FrameState :=
  { comboList := [sampleCombo "a"]
    selectedRows := [0]
    mapToSource := fun r => (r : Int) }

/-- A concrete frame state with two combos, both display rows selected under
the identity proxy map. -/
def bothSelState : FrameState :=
  { comboList := [sampleCombo "a", sampleCombo "b"]
    selectedRows := [0, 1]
    mapToSource := fun r => (r : Int) }

/-- A concrete frame state in which one display row is selected but the
proxy map sends every row outside the one-element combo list, so the
selection count is positive while the filtered source-index list is empty. -/
def c10State : FrameState :=
  { comboList := [sampleCombo "a"]
    selectedRows := [0]
    mapToSource := fun _ => 5 }

end Beeftext

namespace Beeftext

theorem removeIdxAux_of_forall_lt {s : List Nat} {n : Nat} {l : List α}
    (h : ∀ k ∈ s, k < n) : removeIdxAux s n l = l := by
  induction l generalizing n with
  | nil => rfl
  | cons x xs ih =>
    have hn : n ∉ s := fun hm => absurd (h n hm) (by omega)
    simp only [removeIdxAux, if_neg hn]
    exact congrArg (x :: ·) (ih fun k hk => Nat.lt_succ_of_lt (h k hk))

theorem removeIdxAux_append (s : List Nat) (n : Nat) (a b : List α) :
    removeIdxAux s n (a ++ b) = removeIdxAux s n a ++ removeIdxAux s (n + a.length) b := by
  induction a generalizing n with
  | nil => simp [removeIdxAux]
  | cons x xs ih =>
    simp only [List.cons_append, removeIdxAux, List.length_cons, List.append_eq]
    have hm : n + 1 + xs.length = n + (xs.length + 1) := by omega
    by_cases hn : n ∈ s
    · rw [if_pos hn, if_pos hn, ih, hm]
    · rw [if_neg hn, if_neg hn, ih, hm, List.cons_append]

theorem removeIdxAux_cons_of_le {j n : Nat} (s : List Nat) (t : List α)
    (h : n + t.length ≤ j) : removeIdxAux (j :: s) n t = removeIdxAux s n t := by
  induction t generalizing n with
  | nil => rfl
  | cons x xs ih =>
    have hnj : n ≠ j := by simp only [List.length_cons] at h; omega
    simp only [removeIdxAux, List.mem_cons, hnj, false_or]
    have hrec : removeIdxAux (j :: s) (n + 1) xs = removeIdxAux s (n + 1) xs :=
      ih (by simp only [List.length_cons] at h; omega)
    by_cases hn : n ∈ s
    · rw [if_pos hn, if_pos hn, hrec]
    · rw [if_neg hn, if_neg hn, hrec]

theorem removeIdxAux_congr_mem {s s' : List Nat} (n : Nat) (l : List α)
    (h : ∀ k, k ∈ s ↔ k ∈ s') : removeIdxAux s n l = removeIdxAux s' n l := by
  induction l generalizing n with
  | nil => rfl
  | cons x xs ih =>
    simp only [removeIdxAux]
    by_cases hn : n ∈ s
    · rw [if_pos hn, if_pos ((h n).mp hn), ih]
    · rw [if_neg hn, if_neg (fun hn' => hn ((h n).mpr hn')), ih]

theorem removeIndexes_congr_mem {s s' : List Nat} (l : List α)
    (h : ∀ k, k ∈ s ↔ k ∈ s') : removeIndexes l s = removeIndexes l s' :=
  removeIdxAux_congr_mem 0 l h

theorem removeIndexes_nil (l : List α) : removeIndexes l [] = l :=
  removeIdxAux_of_forall_lt (by simp)

theorem removeIndexes_eraseIdx (l : List α) (j : Nat) (s : List Nat)
    (hj : j < l.length) (hs : ∀ k ∈ s, k < j) :
    removeIndexes (l.eraseIdx j) s = removeIndexes l (j :: s) := by
  have hlen : (l.take j).length = j := by
    rw [List.length_take]; omega
  have hdec : l = l.take j ++ l[j] :: l.drop (j + 1) := by
    conv_lhs => rw [← List.take_append_drop j l]
    rw [List.drop_eq_getElem_cons hj]
  unfold removeIndexes
  rw [List.eraseIdx_eq_take_drop_succ, removeIdxAux_append, hlen]
  conv_rhs => rw [hdec]
  rw [removeIdxAux_append, hlen]
  have h1 : removeIdxAux s j (l.drop (j + 1)) = l.drop (j + 1) :=
    removeIdxAux_of_forall_lt fun k hk => hs k hk
  have h2 : removeIdxAux (j :: s) 0 (l.take j) = removeIdxAux s 0 (l.take j) :=
    removeIdxAux_cons_of_le s (l.take j) (by omega)
  have h3 : removeIdxAux (j :: s) j (l[j] :: l.drop (j + 1)) = l.drop (j + 1) := by
    simp only [removeIdxAux, List.mem_cons, true_or, if_pos]
    exact removeIdxAux_of_forall_lt fun k hk => by
      rcases List.mem_cons.mp hk with h | h
      · omega
      · exact Nat.lt_succ_of_lt (hs k h)
  simp only [Nat.zero_add]
  rw [h1, h2, h3]

theorem foldl_eraseIdx_eq_removeIndexes (s : List Nat) (l : List α)
    (hp : s.Pairwise (· > ·)) (hb : ∀ k ∈ s, k < l.length) :
    s.foldl (fun acc i => acc.eraseIdx i) l = removeIndexes l s := by
  induction s generalizing l with
  | nil => exact (removeIndexes_nil l).symm
  | cons j rest ih =>
    obtain ⟨hj, hrest⟩ := List.pairwise_cons.mp hp
    have hjl : j < l.length := hb j (List.mem_cons_self j rest)
    have hbrest : ∀ k ∈ rest, k < (l.eraseIdx j).length := by
      intro k hk
      rw [List.length_eraseIdx_of_lt hjl]
      have := hj k hk
      omega
    rw [List.foldl_cons, ih (l.eraseIdx j) hrest hbrest]
    exact removeIndexes_eraseIdx l j rest hjl fun k hk => hj k hk

theorem perm_insertDesc (x : Int) (l : List Int) : List.Perm (insertDesc x l) (x :: l) := by
  induction l with
  | nil => exact List.Perm.refl _
  | cons y ys ih =>
    simp only [insertDesc]
    by_cases h : y ≤ x
    · rw [if_pos h]
    · rw [if_neg h]
      exact (ih.cons y).trans (List.Perm.swap x y ys)

theorem perm_sortDesc (l : List Int) : List.Perm (sortDesc l) l := by
  induction l with
  | nil => exact List.Perm.refl _
  | cons x xs ih => exact (perm_insertDesc x (sortDesc xs)).trans (ih.cons x)

theorem pairwise_ge_insertDesc {x : Int} {l : List Int}
    (h : l.Pairwise (· ≥ ·)) : (insertDesc x l).Pairwise (· ≥ ·) := by
  induction l with
  | nil => simp [insertDesc]
  | cons y ys ih =>
    obtain ⟨hy, hys⟩ := List.pairwise_cons.mp h
    simp only [insertDesc]
    by_cases hxy : y ≤ x
    · rw [if_pos hxy]
      refine List.pairwise_cons.mpr ⟨?_, h⟩
      intro k hk
      rcases List.mem_cons.mp hk with rfl | hk
      · exact hxy
      · exact le_trans (hy k hk) hxy
    · rw [if_neg hxy]
      refine List.pairwise_cons.mpr ⟨?_, ih hys⟩
      intro k hk
      rcases List.mem_cons.mp ((perm_insertDesc x ys).mem_iff.mp hk) with rfl | hk
      · exact le_of_not_le hxy
      · exact hy k hk

theorem pairwise_ge_sortDesc (l : List Int) : (sortDesc l).Pairwise (· ≥ ·) := by
  induction l with
  | nil => exact List.Pairwise.nil
  | cons x xs ih => exact pairwise_ge_insertDesc ih

theorem mem_getSelectedComboIndexes {st : FrameState} {i : Int}
    (h : i ∈ getSelectedComboIndexes st) :
    0 ≤ i ∧ i < (st.comboList.length : Int) := by
  unfold getSelectedComboIndexes at h
  simp only [List.mem_filterMap] at h
  obtain ⟨r, _, hf⟩ := h
  by_cases hc : 0 ≤ st.mapToSource r ∧ st.mapToSource r < (st.comboList.length : Int)
  · rw [if_pos hc] at hf
    cases hf
    exact hc
  · rw [if_neg hc] at hf
    cases hf

theorem exists_getElem_of_selected_single {st : FrameState} {i : Int}
    (h : getSelectedComboIndexes st = [i]) :
    ∃ c, st.comboList[i.toNat]? = some c := by
  have hm : i ∈ getSelectedComboIndexes st := by rw [h]; exact List.mem_singleton.mpr rfl
  obtain ⟨h0, hlt⟩ := mem_getSelectedComboIndexes hm
  have hn : i.toNat < st.comboList.length := by omega
  exact ⟨st.comboList[i.toNat], List.getElem?_eq_getElem hn⟩

/-- C1: every index returned by `getSelectedComboIndexes` is a valid source
index into the combo list at call time: it is nonnegative and strictly below
the list's length, so a display selection whose proxy mapping falls outside
that range is dropped rather than returned. -/
theorem C1_selected_indexes_within_bounds (st : FrameState) (i : Int)
    (h : i ∈ getSelectedComboIndexes st) :
    0 ≤ i ∧ i < (st.comboList.length : Int) :=
  mem_getSelectedComboIndexes h

/-- Witness for C1: in `c1State`, index 0 is returned and lies within the
bounds of the combo list (display row 1, mapping outside the list, has been
dropped). -/
theorem C1_selected_indexes_within_bounds_witness :
    (0 : Int) ∈ getSelectedComboIndexes c1State ∧
      (0 ≤ (0 : Int) ∧ (0 : Int) < (c1State.comboList.length : Int)) :=
  ⟨by decide, C1_selected_indexes_within_bounds c1State 0 (by decide)⟩

/-- C2: with at least one selected row and the confirmation accepted, the
delete action removes exactly the records at the selected source indexes and
no other record: sorting the indexes in descending order before the sequence
of `eraseIdx` calls makes the fold equal to the positional specification
`removeIndexes`, which keeps an element iff its index is unselected. -/
theorem C2_delete_removes_exactly_selected_indexes (st : FrameState) (saveOk : Bool)
    (hcount : 1 ≤ getSelectedComboCount st)
    (hnd : (getSelectedComboIndexes st).Nodup) :
    (onActionDeleteCombo true saveOk st).comboList
      = removeIndexes st.comboList ((getSelectedComboIndexes st).map Int.toNat) := by
  have hg : ¬ getSelectedComboCount st < 1 := by omega
  have hperm := perm_sortDesc (getSelectedComboIndexes st)
  have hge := pairwise_ge_sortDesc (getSelectedComboIndexes st)
  have hnd' : (sortDesc (getSelectedComboIndexes st)).Nodup := hperm.symm.nodup hnd
  have hgt : (sortDesc (getSelectedComboIndexes st)).Pairwise (· > ·) :=
    (hge.and hnd').imp fun h => lt_of_le_of_ne h.1 (Ne.symm h.2)
  have h0 : ∀ i ∈ sortDesc (getSelectedComboIndexes st), 0 ≤ i :=
    fun i hi => (mem_getSelectedComboIndexes (hperm.mem_iff.mp hi)).1
  have hmap : ((sortDesc (getSelectedComboIndexes st)).map Int.toNat).Pairwise (· > ·) := by
    rw [List.pairwise_map]
    refine hgt.imp_of_mem fun ha hb hab => ?_
    have h1 := h0 _ ha
    have h2 := h0 _ hb
    omega
  have hbnd : ∀ k ∈ (sortDesc (getSelectedComboIndexes st)).map Int.toNat,
      k < st.comboList.length := by
    intro k hk
    obtain ⟨i, hi, rfl⟩ := List.mem_map.mp hk
    have h2 := mem_getSelectedComboIndexes (hperm.mem_iff.mp hi)
    omega
  have hstep : (onActionDeleteCombo true saveOk st).comboList
      = (sortDesc (getSelectedComboIndexes st)).foldl
          (fun l i => l.eraseIdx i.toNat) st.comboList := by
    simp [onActionDeleteCombo, hg]
  have hfold : ((sortDesc (getSelectedComboIndexes st)).map Int.toNat).foldl
        (fun l i => l.eraseIdx i) st.comboList
      = (sortDesc (getSelectedComboIndexes st)).foldl
          (fun l i => l.eraseIdx i.toNat) st.comboList :=
    List.foldl_map Int.toNat (fun l i => l.eraseIdx i)
      (sortDesc (getSelectedComboIndexes st)) st.comboList
  rw [hstep, ← hfold, foldl_eraseIdx_eq_removeIndexes _ _ hmap hbnd]
  exact removeIndexes_congr_mem st.comboList fun k => (hperm.map Int.toNat).mem_iff

/-- Witness for C2: in `c2State` the selected source indexes are 0 and 2, and
deleting them leaves exactly the record at index 1. -/
theorem C2_delete_removes_exactly_selected_indexes_witness :
    (1 ≤ getSelectedComboCount c2State ∧ (getSelectedComboIndexes c2State).Nodup) ∧
      (onActionDeleteCombo true true c2State).comboList
        = removeIndexes c2State.comboList ((getSelectedComboIndexes c2State).map Int.toNat) :=
  ⟨⟨by decide, by decide⟩,
    C2_delete_removes_exactly_selected_indexes c2State true (by decide) (by decide)⟩

/-- C3: with exactly one selected source index and the dialog accepted, the
duplicate action appends the (possibly dialog-edited) clone of the selected
record, increasing the list length by exactly one, and the original record at
the selected index is left in place unmodified. -/
theorem C3_duplicate_appends_clone (st : FrameState) (dlgEdit : Combo → Combo) (i : Int)
    (h : getSelectedComboIndexes st = [i]) :
    ∃ c, st.comboList[i.toNat]? = some c ∧
      (onActionDuplicateCombo true dlgEdit st).comboList
        = st.comboList ++ [dlgEdit (Combo.duplicate c)] ∧
      (onActionDuplicateCombo true dlgEdit st).comboList.length
        = st.comboList.length + 1 ∧
      (onActionDuplicateCombo true dlgEdit st).comboList[i.toNat]? = some c := by
  obtain ⟨c, hc⟩ := exists_getElem_of_selected_single h
  have hlt : i.toNat < st.comboList.length := by
    rcases List.getElem?_eq_some.mp hc with ⟨hl, _⟩
    exact hl
  have hres : (onActionDuplicateCombo true dlgEdit st).comboList
      = st.comboList ++ [dlgEdit (Combo.duplicate c)] := by
    simp [onActionDuplicateCombo, h, hc]
  refine ⟨c, hc, hres, ?_, ?_⟩
  · rw [hres]
    simp
  · rw [hres, List.getElem?_append_left hlt, hc]

/-- Witness for C3: in `singleSelState` with the identity dialog edit, the
duplicate action appends the clone of the single record. -/
theorem C3_duplicate_appends_clone_witness :
    ∃ c, singleSelState.comboList[(0 : Int).toNat]? = some c ∧
      (onActionDuplicateCombo true (fun c => c) singleSelState).comboList
        = singleSelState.comboList ++ [Combo.duplicate c] ∧
      (onActionDuplicateCombo true (fun c => c) singleSelState).comboList.length
        = singleSelState.comboList.length + 1 ∧
      (onActionDuplicateCombo true (fun c => c) singleSelState).comboList[(0 : Int).toNat]?
        = some c :=
  C3_duplicate_appends_clone singleSelState (fun c => c) 0 (by decide)

/-- C4: a rejected modal dialog (or a declined delete confirmation) performs
no mutation: the combo list is unchanged and no save-to-file call is made,
for add, duplicate, edit and delete alike. -/
theorem C4_rejected_dialog_no_mutation (st : FrameState) (dlgEdit : Combo → Combo)
    (saveOk : Bool) :
    ((onActionAddCombo false dlgEdit saveOk st).comboList = st.comboList ∧
      (onActionAddCombo false dlgEdit saveOk st).saveCalled = false) ∧
    ((onActionDuplicateCombo false dlgEdit st).comboList = st.comboList ∧
      (onActionDuplicateCombo false dlgEdit st).saveCalled = false) ∧
    ((onActionEditCombo false dlgEdit saveOk st).comboList = st.comboList ∧
      (onActionEditCombo false dlgEdit saveOk st).saveCalled = false) ∧
    ((onActionDeleteCombo false saveOk st).comboList = st.comboList ∧
      (onActionDeleteCombo false saveOk st).saveCalled = false) := by
  refine ⟨⟨rfl, rfl⟩, ?_, ?_, ?_⟩
  · cases hsel : getSelectedComboIndexes st with
    | nil => simp [onActionDuplicateCombo, hsel, noChange]
    | cons a tl =>
      cases tl with
      | nil =>
        cases hc : st.comboList[a.toNat]? with
        | none => simp [onActionDuplicateCombo, hsel, hc, noChange]
        | some c => simp [onActionDuplicateCombo, hsel, hc, noChange]
      | cons b tl2 => simp [onActionDuplicateCombo, hsel, noChange]
  · cases hsel : getSelectedComboIndexes st with
    | nil => simp [onActionEditCombo, hsel, noChange]
    | cons a tl =>
      cases tl with
      | nil =>
        cases hc : st.comboList[a.toNat]? with
        | none => simp [onActionEditCombo, hsel, hc, noChange]
        | some c => simp [onActionEditCombo, hsel, hc, noChange]
      | cons b tl2 => simp [onActionEditCombo, hsel, noChange]
  · by_cases hg : getSelectedComboCount st < 1 <;>
      simp [onActionDeleteCombo, hg, noChange]

/-- C5: when the save-to-file call fails after an add, delete or edit, the
in-memory combo list keeps the mutation (it is identical to the list obtained
when the save succeeds) and the failure only shows the error dialog. -/
theorem C5_save_failure_keeps_mutation (st : FrameState) (dlgEdit : Combo → Combo)
    (i : Int) :
    ((onActionAddCombo true dlgEdit false st).comboList
        = st.comboList ++ [dlgEdit Combo.create] ∧
      (onActionAddCombo true dlgEdit false st).errorShown = true) ∧
    (1 ≤ getSelectedComboCount st →
      (onActionDeleteCombo true false st).comboList
          = (onActionDeleteCombo true true st).comboList ∧
        (onActionDeleteCombo true false st).errorShown = true) ∧
    (getSelectedComboIndexes st = [i] →
      (onActionEditCombo true dlgEdit false st).comboList
          = (onActionEditCombo true dlgEdit true st).comboList ∧
        (onActionEditCombo true dlgEdit false st).errorShown = true) := by
  refine ⟨⟨rfl, rfl⟩, ?_, ?_⟩
  · intro hcount
    have hg : ¬ getSelectedComboCount st < 1 := by omega
    constructor <;> simp [onActionDeleteCombo, hg]
  · intro h
    obtain ⟨c, hc⟩ := exists_getElem_of_selected_single h
    constructor <;> simp [onActionEditCombo, h, hc]

/-- Witness for C5: in `bothSelState` the delete hypotheses hold, and in
`singleSelState` the edit hypothesis holds; both conclusions follow. -/
theorem C5_save_failure_keeps_mutation_witness :
    (1 ≤ getSelectedComboCount bothSelState ∧
        getSelectedComboIndexes singleSelState = [(0 : Int)]) ∧
      ((onActionDeleteCombo true false bothSelState).comboList
          = (onActionDeleteCombo true true bothSelState).comboList ∧
        (onActionDeleteCombo true false bothSelState).errorShown = true) ∧
      ((onActionEditCombo true (fun c => c) false singleSelState).comboList
          = (onActionEditCombo true (fun c => c) true singleSelState).comboList ∧
        (onActionEditCombo true (fun c => c) false singleSelState).errorShown = true) :=
  ⟨⟨by decide, by decide⟩,
    (C5_save_failure_keeps_mutation bothSelState (fun c => c) 0).2.1 (by decide),
    (C5_save_failure_keeps_mutation singleSelState (fun c => c) 0).2.2 (by decide)⟩

/-- C6: the duplicate action never calls save-to-file, even when the dialog
is accepted, whereas add (dialog accepted), delete (confirmed, with a
selection) and edit (dialog accepted, single selection) each call it after
their mutation. -/
theorem C6_duplicate_does_not_persist (st : FrameState) (dlgEdit : Combo → Combo)
    (saveOk : Bool) (i : Int) :
    (onActionDuplicateCombo true dlgEdit st).saveCalled = false ∧
    (onActionAddCombo true dlgEdit saveOk st).saveCalled = true ∧
    (1 ≤ getSelectedComboCount st →
      (onActionDeleteCombo true saveOk st).saveCalled = true) ∧
    (getSelectedComboIndexes st = [i] →
      (onActionEditCombo true dlgEdit saveOk st).saveCalled = true) := by
  refine ⟨?_, rfl, ?_, ?_⟩
  · cases hsel : getSelectedComboIndexes st with
    | nil => simp [onActionDuplicateCombo, hsel, noChange]
    | cons a tl =>
      cases tl with
      | nil =>
        cases hc : st.comboList[a.toNat]? with
        | none => simp [onActionDuplicateCombo, hsel, hc, noChange]
        | some c => simp [onActionDuplicateCombo, hsel, hc, noChange]
      | cons b tl2 => simp [onActionDuplicateCombo, hsel, noChange]
  · intro hcount
    have hg : ¬ getSelectedComboCount st < 1 := by omega
    simp [onActionDeleteCombo, hg]
  · intro h
    obtain ⟨c, hc⟩ := exists_getElem_of_selected_single h
    simp [onActionEditCombo, h, hc]

/-- Witness for C6: in `bothSelState` the delete hypothesis holds and in
`singleSelState` the edit hypothesis holds; duplicate does not save while
delete and edit do. -/
theorem C6_duplicate_does_not_persist_witness :
    (1 ≤ getSelectedComboCount bothSelState ∧
        getSelectedComboIndexes singleSelState = [(0 : Int)]) ∧
      (onActionDuplicateCombo true (fun c => c) singleSelState).saveCalled = false ∧
      (onActionDeleteCombo true true bothSelState).saveCalled = true ∧
      (onActionEditCombo true (fun c => c) true singleSelState).saveCalled = true :=
  ⟨⟨by decide, by decide⟩,
    (C6_duplicate_does_not_persist singleSelState (fun c => c) true 0).1,
    (C6_duplicate_does_not_persist bothSelState (fun c => c) true 0).2.2.1 (by decide),
    (C6_duplicate_does_not_persist singleSelState (fun c => c) true 0).2.2.2 (by decide)⟩

/-- C7: for every prior store state, `reset` sets the `PlaySoundOnCombo`
preference to true and the `AutoStartAtLogin` preference to false (both as
stored entries and as observed through the getters) and leaves the
`Geometry` and `AppExePath` entries unchanged. -/
theorem C7_reset_restores_defaults (s : Settings) :
    getPlaySoundOnCombo (reset s) = true ∧
    getAutoStartAtLogin (reset s) = false ∧
    reset s kKeyPlaySoundOnCombo = some (QVariant.bool true) ∧
    reset s kKeyAutoStartAtLogin = some (QVariant.bool false) ∧
    reset s kKeyGeometry = s kKeyGeometry ∧
    reset s kKeyAppExePath = s kKeyAppExePath := by
  refine ⟨?_, ?_, ?_, ?_, ?_, ?_⟩ <;>
    simp [reset, getPlaySoundOnCombo, getAutoStartAtLogin, setPlaySoundOnCombo,
      setAutoStartAtLogin, Settings.setValue, Settings.value, QVariant.toBool,
      kKeyPlaySoundOnCombo, kKeyAutoStartAtLogin, kKeyGeometry, kKeyAppExePath,
      kDefaultValuePlaySoundOnCombo, kDefaultvalueAutoStartAtLogin]

/-- C8: on a fresh store where no key has been set, `getAutoStartAtLogin`
returns false and `getPlaySoundOnCombo` returns true: unset keys resolve to
the documented defaults rather than an error. -/
theorem C8_fresh_store_defaults :
    getAutoStartAtLogin Settings.fresh = false ∧
      getPlaySoundOnCombo Settings.fresh = true :=
  ⟨rfl, rfl⟩

/-- C9: `getInstalledApplicationPath` returns the empty string when the
`AppExePath` key was never set, and otherwise the stored path converted from
native separator form to forward-slash form; the store is returned unchanged,
so the getter never writes to it. -/
theorem C9_installed_application_path (s : Settings) :
    getInstalledApplicationPath s
      = ((match s kKeyAppExePath with
          | none => ""
          | some v => fromNativeSeparators v.toString), s) := by
  unfold getInstalledApplicationPath Settings.contains Settings.value
  cases h : s kKeyAppExePath with
  | none => simp [h]
  | some v => simp [h]

/-- C10: the delete action's guard is checked against the raw display
selection count while the deletion itself uses the defensively filtered
source indexes: in `c10State` one display row is selected but it maps outside
the combo list, so delete passes its guard, prompts for confirmation, calls
save-to-file and erases zero records, whereas duplicate and edit, whose
guards run on the filtered source-index list, do nothing at all. -/
theorem C10_delete_guard_uses_raw_selection_count :
    1 ≤ getSelectedComboCount c10State ∧
    getSelectedComboIndexes c10State = [] ∧
    (onActionDeleteCombo true true c10State).prompted = true ∧
    (onActionDeleteCombo true true c10State).comboList = c10State.comboList ∧
    (onActionDeleteCombo true true c10State).saveCalled = true ∧
    onActionDuplicateCombo true (fun c => c) c10State = noChange c10State ∧
    onActionEditCombo true (fun c => c) true c10State = noChange c10State := by
  refine ⟨?_, ?_, ?_, ?_, ?_, ?_, ?_⟩ <;> decide

end Beeftext
